import Mathlib

/-!
Verification development for the `chatgpt-webui-mcp` repository.

The definitions below are a shallow embedding of the TypeScript sources
`src/chatgpt-webui-client.ts` and `src/index.ts`.  Strings are modelled as
Lean `String`/`List Char` (JavaScript `.length` counts UTF-16 units; for the
properties below all reasoning is per character, which agrees on the
relevant inputs and is noted where it matters).  The JavaScript regular
expressions used by the code are small and fixed, so each one is embedded
as an explicit character-list matcher with the same semantics (case
insensitivity is ASCII case folding, which is what the patterns use).
-/

namespace ChatgptWebui

/-- The JavaScript `\s` character class (also used by `String.prototype.trim`). -/
def jsWS (c : Char) : Bool :=
  c == ' ' || c == '\t' || c == '\n' || c == '\x0b' || c == '\x0c' || c == '\r' ||
  c == '\u00A0' || c == '\u1680' || ('\u2000' ≤ c && c ≤ '\u200A') ||
  c == '\u2028' || c == '\u2029' || c == '\u202F' || c == '\u205F' ||
  c == '\u3000' || c == '\uFEFF'

/-- ASCII lower casing of one character (the case folding relevant to the
`/i` regex flags and `toLowerCase` calls in the sources, whose patterns are
all ASCII). -/
def lowerAscii (c : Char) : Char :=
  if 'A' ≤ c && c ≤ 'Z' then Char.ofNat (c.toNat + 32) else c

/-- `String.prototype.toLowerCase`, restricted to ASCII folding. -/
def lowerStr (s : String) : String :=
  ⟨s.data.map lowerAscii⟩

/-- JavaScript `String.prototype.trim` on a character list. -/
def jsTrim (l : List Char) : List Char :=
  ((l.dropWhile jsWS).reverse.dropWhile jsWS).reverse

/-- JavaScript `String.prototype.trim`. -/
def jsTrimStr (s : String) : String :=
  ⟨jsTrim s.data⟩

/-- One pass of `replace(/\s+/g, " ")`: every maximal run of whitespace
becomes a single space.  The `Bool` argument records whether the previous
character was part of a whitespace run. -/
def collapseWSAux : Bool → List Char → List Char
  | _, [] => []
  | prevWs, c :: rest =>
    if jsWS c then
      if prevWs then collapseWSAux true rest
      else ' ' :: collapseWSAux true rest
    else c :: collapseWSAux false rest

/-- `collapseWhitespace` from `chatgpt-webui-client.ts`:
`s.replace(/\s+/g, " ").trim()`. -/
def collapseWhitespace (s : String) : String :=
  ⟨jsTrim (collapseWSAux false s.data)⟩

/-- `needle` is a leading segment of `hay` (character-exact). -/
def leadsWith : List Char → List Char → Bool
  | [], _ => true
  | _ :: _, [] => false
  | a :: as, b :: bs => a == b && leadsWith as bs

/-- `hay.includes(needle)`: `needle` occurs contiguously somewhere in `hay`. -/
def containsChars (hay needle : List Char) : Bool :=
  match hay with
  | [] => needle.isEmpty
  | _ :: rest => leadsWith needle hay || containsChars rest needle

/-- Drop a case-insensitive ASCII literal from the front of `s`, returning
the remainder on success. -/
def dropLitCI : List Char → List Char → Option (List Char)
  | [], s => some s
  | _ :: _, [] => none
  | l :: lit, c :: s => if lowerAscii c == lowerAscii l then dropLitCI lit s else none

/-- Consume `\s+` (at least one whitespace character, then the rest of the
run). -/
def dropWs1 (s : List Char) : Option (List Char) :=
  match s with
  | [] => none
  | c :: rest => if jsWS c then some (rest.dropWhile jsWS) else none

/-- A JavaScript regex word character, `[A-Za-z0-9_]`. -/
def isWordChar (c : Char) : Bool :=
  ('a' ≤ c && c ≤ 'z') || ('A' ≤ c && c ≤ 'Z') || ('0' ≤ c && c ≤ '9') || c == '_'

/-- A `\b` boundary placed after a word character: the next character, if
any, must not be a word character. -/
def boundaryAfter (s : List Char) : Bool :=
  match s with
  | [] => true
  | c :: _ => !isWordChar c

/--
`looksLikePromptText` from `chatgpt-webui-client.ts` (lines 451-474).
Returns `true` when `candidate` looks like the user's prompt: exact match
after whitespace normalization, or (when the normalized prompt has length
at least 20) containment of one string in the other where the contained
string has at least 60% of the container's length.  The JavaScript
comparison `x.length >= y.length * 0.6` is modelled by the exact rational
inequality `10 * x.length ≥ 6 * y.length`; for string lengths the double
rounding of `* 0.6` never changes the outcome of this comparison.
-/
def looksLikePromptText (candidate promptNormalized : String) : Bool :=
  if promptNormalized == "" then false
  else
    let cn := (collapseWhitespace candidate).data
    let pn := (collapseWhitespace promptNormalized).data
    if cn.isEmpty || pn.isEmpty then false
    else if cn == pn then true
    else if decide (20 ≤ pn.length) && decide (6 * pn.length ≤ 10 * cn.length)
        && containsChars pn cn then true
    else if decide (20 ≤ pn.length) && decide (6 * cn.length ≤ 10 * pn.length)
        && containsChars cn pn then true
    else false

/-! ### Snapshot line preprocessing (`extractLikelyAssistantTextFromSnapshot`, lines 476-481) -/

/-- `snapshot.split(/\r?\n/)`: split on newlines (the optional `\r` is
removed by the `trim` that immediately follows in the source, so splitting
on `\n` alone is equivalent there). -/
def splitNlAux (cur : List Char) : List Char → List (List Char)
  | [] => [cur.reverse]
  | c :: rest => if c == '\n' then cur.reverse :: splitNlAux [] rest else splitNlAux (c :: cur) rest

/-- `line.replace(/^[-]\s+/, "")`: strip one leading dash together with the
whitespace run that follows it. -/
def stripLeadingDash (l : List Char) : List Char :=
  match l with
  | '-' :: c :: rest => if jsWS c then (c :: rest).dropWhile jsWS else l
  | _ => l

/-- The preprocessed line list of the extractor:
`split(/\r?\n/) |> map trim |> filter Boolean |> map (replace ^[-]\s+)`. -/
def processLines (snapshot : String) : List (List Char) :=
  (((splitNlAux [] snapshot.data).map jsTrim).filter (fun l => !l.isEmpty)).map stripLeadingDash

/-! ### Embedded line matchers for the extractor's regular expressions -/

/-- `^heading\s+"<label>"` (case-insensitive), e.g. `^heading\s+"You said:"`. -/
def isHeadingLabelLine (label : String) (line : List Char) : Bool :=
  match dropLitCI "heading".data line with
  | none => false
  | some r =>
    match dropWs1 r with
    | none => false
    | some r2 => (dropLitCI ('"' :: (label.data ++ ['"'])) r2).isSome

/-- `^heading\s+"` (case-insensitive), with anything after the quote. -/
def isHeadingQuoteLine (line : List Char) : Bool :=
  match dropLitCI "heading".data line with
  | none => false
  | some r =>
    match dropWs1 r with
    | none => false
    | some r2 => r2.head? == some '"'

/-- `^heading\s+"([^"]+)"`: the captured heading text, when present. -/
def headingCaptureText (line : List Char) : Option (List Char) :=
  match dropLitCI "heading".data line with
  | none => none
  | some r =>
    match dropWs1 r with
    | none => none
    | some r2 =>
      match r2 with
      | '"' :: rest =>
        let inner := rest.takeWhile (fun c => c != '"')
        if inner.isEmpty then none
        else if (rest.drop inner.length).head? == some '"' then some inner else none
      | _ => none

/-- `^<role>:` for one role name (case-insensitive literal, colon immediately after). -/
def hasRoleColon (role : String) (line : List Char) : Bool :=
  match dropLitCI role.data line with
  | some (':' :: _) => true
  | _ => false

/-- `^(r1|r2|...):` — the first alternative followed by a colon. -/
def isRoleColonLine (roles : List String) (line : List Char) : Bool :=
  roles.any (hasRoleColon · line)

/-- `^<role>:\s*`, returning the remainder after the optional whitespace. -/
def dropRoleColonWs (role : String) (line : List Char) : Option (List Char) :=
  match dropLitCI role.data line with
  | some (':' :: r) => some (r.dropWhile jsWS)
  | _ => none

/-- `^(t1|t2|...):\s*` with JavaScript alternation order: the first tag that
is a prefix and is directly followed by a colon wins. -/
def dropInlineTag : List String → List Char → Option (List Char)
  | [], _ => none
  | t :: ts, line =>
    match dropRoleColonWs t line with
    | some v => some v
    | none => dropInlineTag ts line

/-- `^button\s+"` (case-insensitive). -/
def isButtonQuoteLine (line : List Char) : Bool :=
  match dropLitCI "button".data line with
  | none => false
  | some r =>
    match dropWs1 r with
    | none => false
    | some r2 => r2.head? == some '"'

/-- `^button\s+"(n1|n2|...)"` — a closing quote must follow the name. -/
def isButtonNamedLine (names : List String) (line : List Char) : Bool :=
  match dropLitCI "button".data line with
  | none => false
  | some r =>
    match dropWs1 r with
    | none => false
    | some r2 =>
      match r2 with
      | '"' :: rest =>
        names.any fun nm =>
          match dropLitCI nm.data rest with
          | some ('"' :: _) => true
          | _ => false
      | _ => false

/-- `^button\s+"Thought for\b` (case-insensitive). -/
def isThoughtForButtonLine (line : List Char) : Bool :=
  match dropLitCI "button".data line with
  | none => false
  | some r =>
    match dropWs1 r with
    | none => false
    | some r2 =>
      match r2 with
      | '"' :: rest =>
        match dropLitCI "Thought for".data rest with
        | some rest2 => boundaryAfter rest2
        | none => false
      | _ => false

/-- `^separator\b` (case-insensitive). -/
def isSeparatorLine (line : List Char) : Bool :=
  match dropLitCI "separator".data line with
  | some rest => boundaryAfter rest
  | none => false

/-- `/^Ask anything$/i`: exact case-insensitive equality. -/
def ciEquals (lit : String) (v : List Char) : Bool :=
  dropLitCI lit.data v == some []

/-- `value.startsWith('"') && value.endsWith('"')` → `value.slice(1, -1)`. -/
def unquoteValue (v : List Char) : List Char :=
  if v.head? == some '"' && v.getLast? == some '"' then (v.drop 1).dropLast else v

/-! ### Primary extraction path (lines 483-630) -/

/-- `.join(" ").replace(/\s+([.,;:!?)\]}])/g, "$1")` — the punctuation class
of `flushParagraph`. -/
def isClosePunct (c : Char) : Bool :=
  c == '.' || c == ',' || c == ';' || c == ':' || c == '!' || c == '?' ||
  c == ')' || c == ']' || c == '\x7d'

/-- Remove every maximal whitespace run that is directly followed by a
closing-punctuation character (`replace(/\s+([.,;:!?)\]}])/g, "$1")`).
`pending` holds the current whitespace run, most recent first. -/
def squeezeGo (pending : List Char) : List Char → List Char
  | [] => pending.reverse
  | c :: rest =>
    if jsWS c then squeezeGo (c :: pending) rest
    else if isClosePunct c && !pending.isEmpty then c :: squeezeGo [] rest
    else pending.reverse ++ c :: squeezeGo [] rest

def squeezeBeforePunct (l : List Char) : List Char :=
  squeezeGo [] l

/-- `flushParagraph`: when parts are pending, join them with spaces, squeeze
whitespace before closing punctuation, and append the result as a block. -/
def flushPara (blocks parts : List (List Char)) : List (List Char) :=
  match parts with
  | [] => blocks
  | _ :: _ => blocks ++ [squeezeBeforePunct (List.intercalate [' '] parts)]

/-- The inline element tags of the primary path
(`^(text|strong|emphasis|em|code|mark|del|ins|sub|sup|abbr|time|span|link):\s*`). -/
def inlineTags : List String :=
  ["text", "strong", "emphasis", "em", "code", "mark", "del", "ins", "sub", "sup",
   "abbr", "time", "span", "link"]

/-- How the primary collection loop reacts to one snapshot line. -/
inductive LineAction where
  | stop
  | skip
  | headingBlock (h : List Char)
  | para (v : List Char)
  | codeBlock (v : List Char)
  | flushOnly
  | separatorBlock
  | inlinePart (v : List Char)
  | other

/-- The per-line dispatch of the primary collection loop (source order of
the stop, skip, heading, paragraph, code, blockquote, list, separator and
inline-element tests, lines 516-618). -/
def classifyLine (line : List Char) : LineAction :=
  if isHeadingLabelLine "You said:" line then .stop
  else if isRoleColonLine ["article", "complementary", "dialog", "main", "banner"] line then .stop
  else if isButtonNamedLine
      ["Copy", "Good response", "Bad response", "Share", "Switch model", "More actions"]
      line then .stop
  else if isThoughtForButtonLine line then .skip
  else if isButtonQuoteLine line then .skip
  else
    match headingCaptureText line with
    | some h => .headingBlock h
    | none =>
      match dropRoleColonWs "paragraph" line with
      | some v => .para v
      | none =>
        match dropRoleColonWs "code" line with
        | some v => .codeBlock v
        | none =>
          if isRoleColonLine ["blockquote"] line then .flushOnly
          else if isRoleColonLine ["list", "listitem"] line then .flushOnly
          else if isSeparatorLine line then .separatorBlock
          else
            match dropInlineTag inlineTags line with
            | some v => .inlinePart v
            | none => .other

/-- The code-fence block pushed for a standalone `code:` line. -/
def codeFence (v : List Char) : List Char :=
  "```\n".data ++ v ++ "\n```".data

/-- The content blocks of one assistant response: the inner `for j` loop of
the primary path, carried out over the lines following a
`heading "ChatGPT said:"` line. -/
def collectBlocks : List (List Char) → List (List Char) → List (List Char) → List (List Char)
  | [], blocks, parts => flushPara blocks parts
  | line :: rest, blocks, parts =>
    match classifyLine line with
    | .stop => flushPara blocks parts
    | .skip => collectBlocks rest blocks parts
    | .headingBlock h =>
      let b := flushPara blocks parts
      let ht := jsTrim h
      collectBlocks rest (if ht.isEmpty then b else b ++ [('\n' :: "## ".data) ++ ht]) []
    | .para v =>
      let b := flushPara blocks parts
      let u := unquoteValue (jsTrim v)
      collectBlocks rest b (if u.isEmpty || ciEquals "Ask anything" u then [] else [u])
    | .codeBlock v =>
      let b := flushPara blocks parts
      let u := unquoteValue (jsTrim v)
      collectBlocks rest (if u.isEmpty then b else b ++ [codeFence u]) []
    | .flushOnly => collectBlocks rest (flushPara blocks parts) []
    | .separatorBlock => collectBlocks rest ((flushPara blocks parts) ++ ["---".data]) []
    | .inlinePart v =>
      let u := unquoteValue (jsTrim v)
      collectBlocks rest blocks (if u.isEmpty || ciEquals "Ask anything" u then parts else parts ++ [u])
    | .other => collectBlocks rest blocks parts

/-- All assistant chunks of the primary path: one candidate per
`heading "ChatGPT said:"` line, kept only when its block list is non-empty,
in document order. -/
def primaryChunks : List (List Char) → List (List Char)
  | [] => []
  | line :: rest =>
    if isHeadingLabelLine "ChatGPT said:" line then
      match collectBlocks rest [] [] with
      | [] => primaryChunks rest
      | b :: bs => (List.intercalate ['\n'] (b :: bs)) :: primaryChunks rest
    else primaryChunks rest

/-! ### Fallback extraction path (lines 632-738) -/

/-- The denylist of UI-chrome strings (`noisePatterns`). -/
def isNoiseLine (v : List Char) : Bool :=
  (dropLitCI "By messaging ChatGPT".data v).isSome ||
  ciEquals "Terms" v ||
  ciEquals "Privacy Policy" v ||
  ciEquals "Ask anything" v ||
  ciEquals "What can I help with?" v ||
  ciEquals "Attach" v ||
  ciEquals "Search" v ||
  ciEquals "Study" v ||
  ciEquals "Create image" v ||
  ciEquals "Voice" v ||
  ciEquals "Send prompt" v ||
  ciEquals "Send message" v ||
  ciEquals "Get a detailed report" v ||
  ciEquals "Detailed report" v ||
  ciEquals "Sources" v ||
  ciEquals "Log in" v ||
  ciEquals "Sign up for free" v ||
  (dropLitCI "ChatGPT can make mistakes.".data v).isSome

/-- The fallback path's tag alternation
(`^(paragraph|text|strong|emphasis|em|code|mark|del|ins|sub|sup|abbr|time|span|link):\s*`). -/
def fbTags : List String :=
  "paragraph" :: inlineTags

/-- The candidate value a line contributes on the fallback path: the text
after the tag, trimmed, unquoted, and trimmed again. -/
def fallbackLineValue (line : List Char) : Option (List Char) :=
  (dropInlineTag fbTags line).map (fun raw => jsTrim (unquoteValue (jsTrim raw)))

/-- Mutable state of the fallback scan. -/
structure FBState where
  inUser : Bool
  seen : Bool
  before : List (List Char)
  after : List (List Char)
deriving Repr, DecidableEq

/-- One line of the fallback scan (lines 667-721). -/
def fallbackStep (pn : String) (st : FBState) (line : List Char) : FBState :=
  if isHeadingLabelLine "You said:" line then { st with inUser := true }
  else if isHeadingLabelLine "ChatGPT said:" line then { st with inUser := false }
  else
    let st1 := if isHeadingQuoteLine line then { st with inUser := false } else st
    if st1.inUser then st1
    else
      match fallbackLineValue line with
      | none => st1
      | some normalized =>
        if normalized.isEmpty then st1
        else if looksLikePromptText ⟨normalized⟩ pn then { st1 with seen := true }
        else if isNoiseLine normalized then st1
        else if st1.seen then { st1 with after := st1.after ++ [normalized] }
        else { st1 with before := st1.before ++ [normalized] }

/-- The full fallback scan over the preprocessed lines. -/
def fallbackScan (pn : String) (lines : List (List Char)) : FBState :=
  lines.foldl (fallbackStep pn) ⟨false, false, [], []⟩

/-- `extractedAfterPrompt` when non-empty, else `extractedBeforePrompt`. -/
def fallbackPreferred (lines : List (List Char)) (pn : String) : List (List Char) :=
  let st := fallbackScan pn lines
  if st.after.isEmpty then st.before else st.after

/--
`extractLikelyAssistantTextFromSnapshot` from `chatgpt-webui-client.ts`
(lines 476-738).  A total function: the primary path returns the last
assistant chunk when one exists; otherwise the fallback path returns the
last surviving candidate, or the empty string when there is none.
-/
def extractLikelyAssistantTextFromSnapshot (snapshot prompt : String) : String :=
  let lines := processLines snapshot
  match (primaryChunks lines).getLast? with
  | some chunk => ⟨chunk⟩
  | none =>
    match (fallbackPreferred lines (jsTrimStr prompt)).getLast? with
    | some v => ⟨v⟩
    | none => ""

/-! ### Request data model (`index.ts` tool input and `chatgpt-webui-client.ts` ask input) -/

inductive ModelMode where
  | auto | instant | thinking | pro
deriving Repr, DecidableEq

inductive ReasoningEffort where
  | none | standard | extended
deriving Repr, DecidableEq

inductive SiteMode where
  | searchWeb | specificSites
deriving Repr, DecidableEq

/-- `AskToolInput` of `index.ts` (snake_case tool-facing request). -/
structure AskToolInput where
  prompt : String
  model : Option String := none
  model_mode : Option ModelMode := none
  reasoning_effort : Option ReasoningEffort := none
  deep_research : Option Bool := none
  deep_research_site_mode : Option SiteMode := none
  create_image : Option Bool := none
  wait_timeout_ms : Option Nat := none
  workspace : Option String := none
  conversation_id : Option String := none
  parent_message_id : Option String := none
deriving Repr, DecidableEq

/-- JavaScript truthiness of an optional boolean field. -/
def optTruthy : Option Bool → Bool
  | some b => b
  | none => false

/-- Word-boundary occurrence test for `/\b(pro|thinking|research)\b/` (the
pattern has no `/i` flag; it is applied to an already lower-cased string). -/
def bgTokens : List String :=
  ["pro", "thinking", "research"]

def boundaryBeforeOk : Option Char → Bool
  | none => true
  | some c => !isWordChar c

def bgTokenAt (s : List Char) : Bool :=
  bgTokens.any fun t => leadsWith t.data s && boundaryAfter (s.drop t.data.length)

def hasBgTokenAux (prev : Option Char) : List Char → Bool
  | [] => false
  | c :: rest => (boundaryBeforeOk prev && bgTokenAt (c :: rest)) || hasBgTokenAux (some c) rest

def hasBgToken (s : List Char) : Bool :=
  hasBgTokenAux none s

/-- `shouldRunInBackground` from `index.ts` (lines 216-235). -/
def shouldRunInBackground (input : AskToolInput) : Bool :=
  let model := (lowerStr (input.model.getD "")).data
  if optTruthy input.deep_research || input.deep_research_site_mode.isSome then true
  else if optTruthy input.create_image then true
  else if input.model_mode == some .pro || input.model_mode == some .thinking then true
  else if hasBgToken model then true
  else decide (300000 < input.wait_timeout_ms.getD 0)

/-- The routing predicate exactly as the claim words it, with "a model
identifier textually matching `/pro|thinking|research/`" read as a plain
substring regex test (no word boundaries).  Used to compare the claim
against `shouldRunInBackground`. -/
def shouldRunInBackgroundClaim (input : AskToolInput) : Bool :=
  optTruthy input.deep_research || input.deep_research_site_mode.isSome ||
  optTruthy input.create_image ||
  input.model_mode == some .pro || input.model_mode == some .thinking ||
  bgTokens.any (fun t => containsChars (lowerStr (input.model.getD "")).data t.data) ||
  decide (300000 < input.wait_timeout_ms.getD 0)

/-! ### `ask` entry validation (`chatgpt-webui-client.ts`, lines 2901-2922) -/

/-- The client-side ask input (camelCase). -/
structure AskInput where
  prompt : String
  model : Option String := none
  modelMode : Option ModelMode := none
  reasoningEffort : Option ReasoningEffort := none
  deepResearch : Option Bool := none
  deepResearchSiteMode : Option SiteMode := none
  createImage : Option Bool := none
  waitTimeoutMs : Option Nat := none
  workspace : Option String := none
  conversationId : Option String := none
  parentMessageId : Option String := none
deriving Repr, DecidableEq

/-- `modeToDefaultModelSlug` (lines 1051-1064). -/
def modeToDefaultModelSlug : Option ModelMode → Option String
  | some .auto => some "gpt-5-2"
  | some .instant => some "gpt-5-2-instant"
  | some .thinking => some "gpt-5-2-thinking"
  | some .pro => some "gpt-5-2-pro"
  | none => none

/-- `deepResearchRequested` of `ask`:
`input.deepResearch === true || input.deepResearchSiteMode !== undefined ||
input.model?.trim() === "research"`. -/
def deepResearchRequested (input : AskInput) : Bool :=
  (input.deepResearch == some true) || input.deepResearchSiteMode.isSome ||
  (input.model.map jsTrimStr == some "research")

/-- JavaScript `a || b` over optional strings, where the empty string is falsy. -/
def orFalsy : Option String → Option String → Option String
  | some s, b => if s.isEmpty then b else some s
  | none, b => b

/-- `requestedModel` of `ask` (lines 2914-2916). -/
def requestedModel (input : AskInput) : Option String :=
  if deepResearchRequested input then some "research"
  else
    orFalsy (input.model.map jsTrimStr)
      (orFalsy (modeToDefaultModelSlug input.modelMode)
        (orFalsy (modeToDefaultModelSlug (some .auto)) none))

inductive AskReject where
  | missingPrompt
  | invalidModeCombination
deriving Repr, DecidableEq

/-- The result of `ask`'s input validation: either an immediate rejection
(thrown before any remote interaction), or the normalized input handed to
`#askViaCamofox` for the remote run. -/
inductive AskEntry where
  | rejected (e : AskReject)
  | remoteRun (normalized : AskInput)
deriving Repr, DecidableEq

/-- The front of `ask` (lines 2901-2922): trim the prompt, reject an empty
prompt, reject `createImage` combined with a deep-research request, and
otherwise proceed to the remote interaction with the normalized input. -/
def askEntry (input : AskInput) : AskEntry :=
  let prompt := jsTrimStr input.prompt
  if prompt == "" then .rejected .missingPrompt
  else if optTruthy input.createImage && deepResearchRequested input then
    .rejected .invalidModeCombination
  else .remoteRun { input with prompt := prompt, model := requestedModel input }

/-- `shouldUseDeepResearch` of `#askViaCamofox` (lines 2553-2560). -/
def camofoxShouldUseDeepResearch (input : AskInput) : Bool :=
  let explicitModel :=
    match input.model.map jsTrimStr with
    | some s => if s.isEmpty then Option.none else some s
    | none => Option.none
  let effectiveModelSlug :=
    match explicitModel with
    | some s => some s
    | none => modeToDefaultModelSlug input.modelMode
  (input.deepResearch == some true) || input.deepResearchSiteMode.isSome ||
  (effectiveModelSlug == some "research")

/-- The mutual-exclusion precheck at the top of `#askViaCamofox`
(lines 2562-2564). -/
def camofoxPrecheckRejects (input : AskInput) : Bool :=
  (input.createImage == some true) && camofoxShouldUseDeepResearch input

/-! ### Job scheduler (`index.ts`, lines 80-214) -/

inductive AskJobState where
  | queued | running | succeeded | failed
deriving Repr, DecidableEq

/-- The formatted ask result stored on a job (shape of `formatAskResult`). -/
structure AskResultRec where
  text : String
  conversationId : Option String := none
  parentMessageId : Option String := none
  model : Option String := none
  imageUrls : List String := []
deriving Repr, DecidableEq

/-- `AskJob` of `index.ts`.  Timestamps are `Date.now()` millisecond values,
modelled as integers. -/
structure AskJobRec where
  id : String
  state : AskJobState
  createdAt : Int
  startedAt : Option Int := none
  finishedAt : Option Int := none
  input : AskToolInput
  result : Option AskResultRec := none
  error : Option String := none
deriving Repr, DecidableEq

def isTerminalJob (j : AskJobRec) : Bool :=
  j.state == .succeeded || j.state == .failed

/-- The TTL test of `cleanupAskJobs`:
`job.finishedAt && now - job.finishedAt > ASK_ASYNC_JOB_TTL_MS` (a finish
time of `0` is falsy in JavaScript and is therefore never TTL-evicted). -/
def ttlExpired (now ttl : Int) (j : AskJobRec) : Bool :=
  match j.finishedAt with
  | some t => t != 0 && decide (ttl < now - t)
  | none => false

/-- The sort key of capacity eviction: `a.finishedAt ?? a.createdAt`. -/
def evictKey (j : AskJobRec) : Int :=
  j.finishedAt.getD j.createdAt

/-- The ascending comparator `(a, b) => keyA - keyB` of capacity eviction. -/
def evictLe (a b : AskJobRec) : Bool :=
  evictKey a ≤ evictKey b

/-- The `while (askJobs.size > ASK_ASYNC_JOB_MAX && evictable.length > 0)`
loop: delete the evictable jobs by id, oldest first, until at or under the
cap.  The job table is modelled as a list in insertion order (the iteration
order of a JavaScript `Map`), with one entry per id. -/
def evictLoop (cap : Nat) : List AskJobRec → List AskJobRec → List AskJobRec
  | jobs, [] => jobs
  | jobs, e :: rest =>
    if cap < jobs.length then evictLoop cap (jobs.filter (fun j => j.id != e.id)) rest
    else jobs

/-- `cleanupAskJobs` from `index.ts` (lines 145-170): evict TTL-expired
finished jobs, then, while over the cap, evict terminal jobs in ascending
`finishedAt ?? createdAt` order (a stable sort, as JavaScript's). -/
def cleanupAskJobs (now ttl : Int) (cap : Nat) (jobs : List AskJobRec) : List AskJobRec :=
  let jobs1 := jobs.filter (fun j => !ttlExpired now ttl j)
  if jobs1.length ≤ cap then jobs1
  else
    evictLoop cap jobs1 ((jobs1.filter isTerminalJob).mergeSort evictLe)

/-- `waitForAskJob` from `index.ts` (lines 203-214).  The job's evolution
under its (single-writer) worker is modelled by `timeline`, giving the
job's field values after `elapsed` milliseconds; one loop iteration sleeps
`pollIntervalMs`.  The `fuel` argument bounds the recursion and is chosen
large enough that it is never what stops the loop when
`pollIntervalMs ≥ 1`. -/
def waitForAskJobLoop (timeline : Nat → AskJobRec) (waitTimeoutMs pollIntervalMs : Nat) :
    Nat → Nat → AskJobRec
  | elapsed, fuel =>
    let j := timeline elapsed
    if j.state == .queued || j.state == .running then
      if waitTimeoutMs ≤ elapsed then j
      else
        match fuel with
        | 0 => j
        | fuel' + 1 =>
          waitForAskJobLoop timeline waitTimeoutMs pollIntervalMs (elapsed + pollIntervalMs) fuel'
    else j

def waitForAskJob (timeline : Nat → AskJobRec) (waitTimeoutMs pollIntervalMs : Nat) : AskJobRec :=
  waitForAskJobLoop timeline waitTimeoutMs pollIntervalMs 0 (waitTimeoutMs + 1)

/-! ### Snapshot predicates of the completion poller (`chatgpt-webui-client.ts`) -/

/-- Search for a pattern at every position of a character list. -/
def anySuffix (p : List Char → Bool) : List Char → Bool
  | [] => p []
  | c :: rest => p (c :: rest) || anySuffix p rest

/-- Case-insensitive substring occurrence. -/
def containsCharsCI (hay needle : List Char) : Bool :=
  anySuffix (fun s => (dropLitCI needle s).isSome) hay

/-- A match of `button\s+"(?:Stop|Cancel)\b` starting at this position. -/
def stopCancelAt (s : List Char) : Bool :=
  match dropLitCI "button".data s with
  | none => false
  | some r =>
    match dropWs1 r with
    | none => false
    | some r2 =>
      match r2 with
      | '"' :: rest =>
        (match dropLitCI "Stop".data rest with
         | some rest2 => boundaryAfter rest2
         | none => false) ||
        (match dropLitCI "Cancel".data rest with
         | some rest2 => boundaryAfter rest2
         | none => false)
      | _ => false

/-- `snapshotIndicatesGenerationInProgress` (lines 819-821). -/
def snapshotIndicatesGenerationInProgress (snapshot : String) : Bool :=
  anySuffix stopCancelAt snapshot.data

/-- A match of `button\s+"(n1|n2|...)"` starting at this position. -/
def buttonNamedAt (names : List String) (s : List Char) : Bool :=
  isButtonNamedLine names s

/-- A match of `textbox\s+` starting at this position. -/
def textboxWsAt (s : List Char) : Bool :=
  match dropLitCI "textbox".data s with
  | some r => (dropWs1 r).isSome
  | none => false

/-- `snapshotIndicatesReadyForNextPrompt` (lines 839-845). -/
def snapshotIndicatesReadyForNextPrompt (snapshot : String) : Bool :=
  anySuffix (buttonNamedAt ["Send prompt", "Send message"]) snapshot.data ||
  anySuffix textboxWsAt snapshot.data ||
  containsCharsCI snapshot.data "#prompt-textarea".data

inductive FatalKind where
  | somethingWentWrong
  | unableToLoadConversation
  | sessionLoggedOut
  | sessionExpired
deriving Repr, DecidableEq

/-- A match of the phrase with a trailing `\b` starting at this position. -/
def phraseWithEndBoundaryAt (phrase : List Char) (s : List Char) : Bool :=
  match dropLitCI phrase s with
  | some rest => boundaryAfter rest
  | none => false

def anySuffixWithPrev (p : Option Char → List Char → Bool) : Option Char → List Char → Bool
  | prev, [] => p prev []
  | prev, c :: rest => p prev (c :: rest) || anySuffixWithPrev p (some c) rest

/-- `\b<phrase>\b` occurrence anywhere in the snapshot (case-insensitive). -/
def hasWordPhraseCI (phrase : String) (snapshot : String) : Bool :=
  anySuffixWithPrev
    (fun prev s => boundaryBeforeOk prev && phraseWithEndBoundaryAt phrase.data s)
    none snapshot.data

/-- `snapshotFatalUiError` (lines 847-865). -/
def snapshotFatalUiError (snapshot : String) : Option FatalKind :=
  if hasWordPhraseCI "Something went wrong" snapshot then some .somethingWentWrong
  else if hasWordPhraseCI "Unable to load conversation" snapshot then some .unableToLoadConversation
  else if hasWordPhraseCI "You have been logged out" snapshot then some .sessionLoggedOut
  else if hasWordPhraseCI "Session expired" snapshot then some .sessionExpired
  else none

/-- `snapshotIndicatesLoginRequired` (lines 867-869). -/
def snapshotIndicatesLoginRequired (snapshot : String) : Bool :=
  anySuffix (buttonNamedAt ["Log in"]) snapshot.data &&
  anySuffix (buttonNamedAt ["Sign up for free"]) snapshot.data

/-- A match of `\/c\/([^/?#]+)` starting at this position (the `/i` flag of
the source pattern also accepts `/C/`). -/
def convIdAt : List Char → Option (List Char)
  | '/' :: c :: '/' :: r =>
    if c == 'c' || c == 'C' then
      let cid := r.takeWhile (fun ch => ch != '/' && ch != '?' && ch != '#')
      if cid.isEmpty then none else some cid
    else none
  | _ => none

def firstConvId : List Char → Option (List Char)
  | [] => none
  | c :: rest =>
    match convIdAt (c :: rest) with
    | some cid => some cid
    | none => firstConvId rest

/-- `parseConversationIdFromUrl` (lines 1066-1077). -/
def parseConversationIdFromUrl (url : Option String) : Option String :=
  match url with
  | none => none
  | some u => if u == "" then none else (firstConvId u.data).map (⟨·⟩)

/-- One trailing `\r` removed, as `split(/\r?\n/)` does. -/
def stripCR (l : List Char) : List Char :=
  if l.getLast? == some '\r' then l.dropLast else l

def splitJsLines (s : String) : List (List Char) :=
  (splitNlAux [] s.data).map stripCR

/-- A match of `button\s+(?:"([^"]+)"\s+)?\[(e\d+)\]` (the pattern of
`parseSnapshotForRef`) starting at this position, giving the captured name
(`""` for the nameless form). -/
def eRefAt (s : List Char) : Bool :=
  match s with
  | '[' :: c :: r =>
    if c == 'e' || c == 'E' then
      let ds := r.takeWhile Char.isDigit
      !ds.isEmpty && (r.drop ds.length).head? == some ']'
    else false
  | _ => false

def refNameAt (role : List Char) (s : List Char) : Option (List Char) :=
  match dropLitCI role s with
  | none => none
  | some r =>
    match dropWs1 r with
    | none => none
    | some r2 =>
      match r2 with
      | '"' :: rest =>
        let nm := rest.takeWhile (fun ch => ch != '"')
        if !nm.isEmpty && (rest.drop nm.length).head? == some '"' then
          match dropWs1 (rest.drop (nm.length + 1)) with
          | some r3 => if eRefAt r3 then some nm else none
          | none => none
        else none
      | r2' => if eRefAt r2' then some [] else none

/-- The leftmost match of the `parseSnapshotForRef` pattern within one line. -/
def lineFirstRefName (role : List Char) : List Char → Option (List Char)
  | [] => none
  | c :: rest =>
    match refNameAt role (c :: rest) with
    | some nm => some nm
    | none => lineFirstRefName role rest

/-- `parseSnapshotForRef(snapshot, "button", /Continue generating/i) !== null`:
some line's first `button ... [eN]` match has a name containing
"Continue generating". -/
def continueGeneratingPresent (snapshot : String) : Bool :=
  (splitJsLines snapshot).any fun line =>
    match lineFirstRefName "button".data line with
    | some nm => containsCharsCI nm "Continue generating".data
    | none => false

/-! ### Completion poller (`#camofoxPollAssistantText`, lines 2387-2473) -/

/-- One observation of the page during a poll tick: the snapshot text, the
tab's URL, and the `Date.now()` value during the tick. -/
structure PollTick where
  snapshotText : String
  url : Option String := none
  time : Int := 0
deriving Repr, DecidableEq

/-- The poller's mutable state across ticks. -/
structure PollState where
  lastCandidate : String
  lastCandidateAt : Int
  lastConversationId : Option String
  idleTicks : Nat
  seenGenerationIndicator : Bool
deriving Repr, DecidableEq

def initPollState : PollState :=
  ⟨"", 0, none, 0, false⟩

def minimumSettleMs : Int := 6000

inductive PollOutcome where
  | settled (text : String) (conversationId : Option String)
  | uiError (kind : FatalKind)
  | loginRequired
  | timedOut
deriving Repr, DecidableEq

inductive PollStep where
  | next (st : PollState)
  | done (out : PollOutcome)
deriving Repr, DecidableEq

/-- `lastConversationId` after one tick: the id parsed from the tick's URL
when present, the previous value otherwise (lines 2426-2429). -/
def pollObservedConv (tick : PollTick) (st0 : PollState) : Option String :=
  match parseConversationIdFromUrl tick.url with
  | some cid => some cid
  | none => st0.lastConversationId

/-- The `seenGenerationIndicator` update at the top of a tick
(lines 2406-2409). -/
def pollSeen (tick : PollTick) (st : PollState) : PollState :=
  { st with seenGenerationIndicator :=
      st.seenGenerationIndicator || snapshotIndicatesGenerationInProgress tick.snapshotText }

/-- The candidate/idle-tick state update of one tick (lines 2425-2441). -/
def pollStepState (prompt : String) (tick : PollTick) (st0 : PollState) : PollState :=
  let stillGenerating := snapshotIndicatesGenerationInProgress tick.snapshotText
  let candidate := extractLikelyAssistantTextFromSnapshot tick.snapshotText prompt
  let lastConv := pollObservedConv tick st0
  let canTrust := st0.seenGenerationIndicator || lastConv.isSome
  if canTrust && candidate != "" && candidate != st0.lastCandidate then
    { st0 with lastCandidate := candidate, lastCandidateAt := tick.time,
               lastConversationId := lastConv, idleTicks := 0 }
  else if !stillGenerating then
    { st0 with lastConversationId := lastConv, idleTicks := st0.idleTicks + 1 }
  else
    { st0 with lastConversationId := lastConv, idleTicks := 0 }

/-- One iteration of the poll loop body (lines 2402-2461).  The fatal-error
branch raises with the error kind found (`fatalUiError && !lastCandidate`
in the source; a found kind is a non-empty string, hence truthy). -/
def pollStep (prompt : String) (allowEmptyResult : Bool) (tick : PollTick) (st : PollState) :
    PollStep :=
  let snapshotText := tick.snapshotText
  let stillGenerating := snapshotIndicatesGenerationInProgress snapshotText
  let st0 := pollSeen tick st
  if continueGeneratingPresent snapshotText then .next { st0 with idleTicks := 0 }
  else if (snapshotFatalUiError snapshotText).isSome && st0.lastCandidate == "" then
    .done (.uiError ((snapshotFatalUiError snapshotText).getD .somethingWentWrong))
  else if snapshotIndicatesLoginRequired snapshotText && st0.lastCandidate == "" then
    .done .loginRequired
  else
    let st1 := pollStepState prompt tick st0
    let canTrust := st0.seenGenerationIndicator || (pollObservedConv tick st0).isSome
    if st1.lastCandidate != "" && !stillGenerating &&
        decide (minimumSettleMs ≤ tick.time - st1.lastCandidateAt) &&
        (snapshotIndicatesReadyForNextPrompt snapshotText || decide (3 ≤ st1.idleTicks)) then
      .done (.settled st1.lastCandidate st1.lastConversationId)
    else if allowEmptyResult && canTrust && !stillGenerating &&
        (snapshotIndicatesReadyForNextPrompt snapshotText || decide (3 ≤ st1.idleTicks)) then
      .done (.settled "" st1.lastConversationId)
    else .next st1

/-- The code run when the overall deadline expires (lines 2464-2472). -/
def pollDeadline (allowEmptyResult : Bool) (st : PollState) : PollOutcome :=
  if st.lastCandidate != "" then .settled st.lastCandidate st.lastConversationId
  else if allowEmptyResult && st.lastConversationId.isSome then .settled "" st.lastConversationId
  else .timedOut

/-- The full poll loop: one `PollTick` per iteration of the `while` loop;
an exhausted tick list is the overall deadline expiring. -/
def pollLoop (prompt : String) (allowEmptyResult : Bool) :
    List PollTick → PollState → PollOutcome
  | [], st => pollDeadline allowEmptyResult st
  | t :: ts, st =>
    match pollStep prompt allowEmptyResult t st with
    | .done out => out
    | .next st1 => pollLoop prompt allowEmptyResult ts st1

/-- All states the poller passes through on a run (including the initial
one, excluding states after an early return). -/
def pollStates (prompt : String) (allowEmptyResult : Bool) :
    List PollTick → PollState → List PollState
  | [], st => [st]
  | t :: ts, st =>
    st :: (match pollStep prompt allowEmptyResult t st with
           | .done _ => []
           | .next st1 => pollStates prompt allowEmptyResult ts st1)

/-! ## Theorems -/

/--
C1: for every request in which `createImage` is set together with any
`deepResearch`-family option (`deepResearch` true, `deepResearchSiteMode`
set, or model `"research"`), the `ask` operation rejects the request with
the invalid-mode-combination error before any remote interaction occurs:
its validation front returns `rejected`, so the remote phase
(`#askViaCamofox`, hence any backend call) is never entered.  (The prompt
is non-empty, as the request data model requires.)
-/
theorem ask_rejects_createImage_with_deepResearch (input : AskInput)
    (hp : jsTrimStr input.prompt ≠ "")
    (hc : optTruthy input.createImage = true)
    (hd : deepResearchRequested input = true) :
    askEntry input = .rejected .invalidModeCombination := by
  have h1 : (jsTrimStr input.prompt == "") = false := by
    simpa using hp
  simp [askEntry, h1, hc, hd]

theorem ask_rejects_createImage_with_deepResearch_witness :
    askEntry { prompt := "hi", createImage := some true, deepResearch := some true } =
      .rejected .invalidModeCombination :=
  ask_rejects_createImage_with_deepResearch _ (by decide) (by decide) (by decide)

/--
C2: the response extractor is total (it is a Lean function, so it cannot
throw), and whenever the structured path yields no assistant chunk and the
fallback path yields no surviving candidate line, it returns the empty
string.
-/
theorem extractor_empty_when_no_candidates (snapshot prompt : String)
    (h1 : primaryChunks (processLines snapshot) = [])
    (h2 : fallbackPreferred (processLines snapshot) (jsTrimStr prompt) = []) :
    extractLikelyAssistantTextFromSnapshot snapshot prompt = "" := by
  simp [extractLikelyAssistantTextFromSnapshot, h1, h2]

theorem extractor_empty_when_no_candidates_witness :
    extractLikelyAssistantTextFromSnapshot "button \"Copy\"" "hi" = "" :=
  extractor_empty_when_no_candidates _ _ (by decide) (by decide)

/--
The prompt-echo filter exactly as claim C3 words it: discarded when the
strings match after whitespace normalization, or when either string
contains a substring of the other whose length is at least 60% of it —
with no minimum-length requirement on the normalized prompt.
-/
def promptEchoClaim (candidate promptNormalized : String) : Bool :=
  let cn := (collapseWhitespace candidate).data
  let pn := (collapseWhitespace promptNormalized).data
  (cn == pn) ||
  (decide (6 * pn.length ≤ 10 * cn.length) && containsChars pn cn) ||
  (decide (6 * cn.length ≤ 10 * pn.length) && containsChars cn pn)

/--
C3 counterexample: candidate `"abc"` against prompt `"abcde"`.  The
candidate is a substring of the prompt of exactly 60% of its length, so the
claim's filter discards it; the code keeps it, because its containment
branches additionally require the normalized prompt to have length at
least 20.
-/
theorem looksLikePromptText_claim_counterexample :
    promptEchoClaim "abc" "abcde" = true ∧ looksLikePromptText "abc" "abcde" = false := by
  constructor
  · decide
  · decide

/--
C3 amended: a candidate is discarded exactly when both whitespace-normalized
strings are non-empty and either they are equal, or the normalized prompt
has length at least 20 and one string contains the other with the contained
string's length at least 60% of the container's.
-/
theorem looksLikePromptText_amended (candidate promptNormalized : String) :
    looksLikePromptText candidate promptNormalized =
      (let cn := (collapseWhitespace candidate).data
       let pn := (collapseWhitespace promptNormalized).data
       (!cn.isEmpty && !pn.isEmpty) &&
       ((cn == pn) ||
        (decide (20 ≤ pn.length) && decide (6 * pn.length ≤ 10 * cn.length)
          && containsChars pn cn) ||
        (decide (20 ≤ pn.length) && decide (6 * cn.length ≤ 10 * pn.length)
          && containsChars cn pn))) := by
  by_cases hp : promptNormalized = ""
  · subst hp
    simp [looksLikePromptText, collapseWhitespace, collapseWSAux, jsTrim]
  · have hp' : (promptNormalized == "") = false := by simpa using hp
    simp only [looksLikePromptText, hp', Bool.false_eq_true, if_false]
    cases h1 : (collapseWhitespace candidate).data.isEmpty <;>
      cases h2 : (collapseWhitespace promptNormalized).data.isEmpty <;>
      cases h3 : ((collapseWhitespace candidate).data ==
        (collapseWhitespace promptNormalized).data) <;>
      cases h4 : (decide (20 ≤ (collapseWhitespace promptNormalized).data.length) &&
        decide (6 * (collapseWhitespace promptNormalized).data.length ≤
          10 * (collapseWhitespace candidate).data.length) &&
        containsChars (collapseWhitespace promptNormalized).data
          (collapseWhitespace candidate).data) <;>
      cases h5 : (decide (20 ≤ (collapseWhitespace promptNormalized).data.length) &&
        decide (6 * (collapseWhitespace candidate).data.length ≤
          10 * (collapseWhitespace promptNormalized).data.length) &&
        containsChars (collapseWhitespace candidate).data
          (collapseWhitespace promptNormalized).data) <;>
      simp_all

/--
C5 counterexample: the request `{prompt := "x", model := "approve"}`.
`"approve"` contains `"pro"` as a substring, so the claim's plain-regex
reading routes it to background; the code's predicate requires
`\b`-delimited whole words and routes it inline.
-/
theorem shouldRunInBackground_claim_counterexample :
    shouldRunInBackground { prompt := "x", model := some "approve" } = false ∧
    shouldRunInBackgroundClaim { prompt := "x", model := some "approve" } = true := by
  constructor
  · decide
  · decide

/--
C5 amended: the auto-mode routing predicate returns background exactly when
the request sets a deep-research flag, requests an image, sets model mode
pro or thinking, gives a model identifier containing `pro`, `thinking` or
`research` as a whole word (`/\b(pro|thinking|research)\b/` on the
lower-cased identifier), or gives an explicit wait budget strictly
exceeding 300000 ms; otherwise it returns inline.
-/
theorem shouldRunInBackground_amended (input : AskToolInput) :
    shouldRunInBackground input =
      (optTruthy input.deep_research || input.deep_research_site_mode.isSome ||
       optTruthy input.create_image ||
       input.model_mode == some ModelMode.pro || input.model_mode == some ModelMode.thinking ||
       hasBgToken (lowerStr (input.model.getD "")).data ||
       decide (300000 < input.wait_timeout_ms.getD 0)) := by
  simp only [shouldRunInBackground]
  repeat' split
  all_goals simp_all

/--
C7: when the completion poller's overall deadline expires (the tick budget
is exhausted without an early return), it returns the last known candidate
text if one was captured; otherwise, if empty results are acceptable and a
conversation id was resolved, it returns an empty text with that id;
otherwise it fails with the timeout error.
-/
theorem poller_deadline_behavior (prompt : String) (allowEmptyResult : Bool) (st : PollState) :
    (st.lastCandidate ≠ "" →
      pollLoop prompt allowEmptyResult [] st =
        .settled st.lastCandidate st.lastConversationId) ∧
    (st.lastCandidate = "" → allowEmptyResult = true →
      ∀ cid, st.lastConversationId = some cid →
        pollLoop prompt allowEmptyResult [] st = .settled "" (some cid)) ∧
    (st.lastCandidate = "" → (allowEmptyResult = false ∨ st.lastConversationId = none) →
      pollLoop prompt allowEmptyResult [] st = .timedOut) := by
  refine ⟨?_, ?_, ?_⟩
  · intro h
    have h' : (st.lastCandidate != "") = true := by simpa using h
    simp [pollLoop, pollDeadline, h']
  · intro h hae cid hcid
    have h' : (st.lastCandidate != "") = false := by simpa using h
    simp [pollLoop, pollDeadline, h', hae, hcid]
  · intro h hcase
    have h' : (st.lastCandidate != "") = false := by simpa using h
    rcases hcase with hae | hcid
    · simp [pollLoop, pollDeadline, h', hae]
    · simp [pollLoop, pollDeadline, h', hcid]

theorem poller_deadline_behavior_witness :
    pollLoop "p" true []
      { lastCandidate := "ans", lastCandidateAt := 0, lastConversationId := none,
        idleTicks := 0, seenGenerationIndicator := false } = .settled "ans" none :=
  (poller_deadline_behavior "p" true _).1 (by decide)

/-- The trust guard of claim C8: whenever the stored last candidate is
non-empty, a generation-in-progress indicator has been observed in some
snapshot or a conversation id has been resolved from a visited URL. -/
def TrustInv (st : PollState) : Prop :=
  st.lastCandidate ≠ "" →
    (st.seenGenerationIndicator = true ∨ st.lastConversationId.isSome = true)

theorem pollObservedConv_isSome_mono (tick : PollTick) (st0 : PollState)
    (h : st0.lastConversationId.isSome = true) :
    (pollObservedConv tick st0).isSome = true := by
  unfold pollObservedConv
  cases parseConversationIdFromUrl tick.url <;> simp_all

theorem pollSeen_preserves_TrustInv (tick : PollTick) (st : PollState) (h : TrustInv st) :
    TrustInv (pollSeen tick st) := by
  intro hc
  rcases h hc with hs | hv
  · exact Or.inl (by simp [pollSeen, hs])
  · exact Or.inr hv

theorem pollStepState_preserves_TrustInv (prompt : String) (tick : PollTick)
    (st0 : PollState) (h : TrustInv st0) : TrustInv (pollStepState prompt tick st0) := by
  unfold pollStepState
  dsimp only
  split
  next hcond =>
    intro _
    simp only [Bool.and_eq_true] at hcond
    rcases Bool.or_eq_true _ _ |>.mp hcond.1.1 with hs | hv
    · exact Or.inl hs
    · exact Or.inr hv
  next =>
    split
    all_goals
      intro hc
      simp only at hc
      rcases h hc with hs | hv
      · exact Or.inl hs
      · exact Or.inr (pollObservedConv_isSome_mono tick st0 hv)

theorem pollStep_preserves_TrustInv (prompt : String) (ae : Bool) (tick : PollTick)
    (st st' : PollState) (h : TrustInv st)
    (hstep : pollStep prompt ae tick st = .next st') : TrustInv st' := by
  have h0 : TrustInv (pollSeen tick st) := pollSeen_preserves_TrustInv tick st h
  unfold pollStep at hstep
  dsimp only at hstep
  split at hstep
  · cases hstep
    intro hc
    exact h0 hc
  · split at hstep
    · exact absurd hstep (by simp)
    · split at hstep
      · exact absurd hstep (by simp)
      · split at hstep
        · exact absurd hstep (by simp)
        · split at hstep
          · exact absurd hstep (by simp)
          · cases hstep
            exact pollStepState_preserves_TrustInv prompt tick _ h0

theorem pollStates_TrustInv_general (prompt : String) (ae : Bool) :
    ∀ (ticks : List PollTick) (st st' : PollState), TrustInv st →
      st' ∈ pollStates prompt ae ticks st → TrustInv st' := by
  intro ticks
  induction ticks with
  | nil =>
    intro st st' h hm
    simp only [pollStates, List.mem_singleton] at hm
    exact hm ▸ h
  | cons t ts ih =>
    intro st st' h hm
    simp only [pollStates] at hm
    rcases List.mem_cons.mp hm with rfl | hm2
    · exact h
    · cases hstep : pollStep prompt ae t st with
      | done out => rw [hstep] at hm2; simp at hm2
      | next st1 =>
        rw [hstep] at hm2
        exact ih st1 st' (pollStep_preserves_TrustInv prompt ae t st st1 h hstep) hm2

/--
C8: throughout every run of the completion poller (started from the
initial state), the stored last candidate is never non-empty in a reached
state unless a generation-in-progress indicator has been observed in some
snapshot or a conversation id has been resolved from a visited URL.
-/
theorem poller_trust_before_candidate (prompt : String) (ae : Bool)
    (ticks : List PollTick) (st' : PollState)
    (h : st' ∈ pollStates prompt ae ticks initPollState) : TrustInv st' :=
  pollStates_TrustInv_general prompt ae ticks initPollState st'
    (by intro hc; simp [initPollState] at hc) h

theorem poller_trust_before_candidate_witness : TrustInv initPollState :=
  poller_trust_before_candidate "p" false [] initPollState (by simp [pollStates])

/-- Helper for C9: the wait loop always returns a sampled value of the
timeline, and (when the fuel budget covers the timeout) it exits only on a
terminal state or once the timeout has elapsed. -/
theorem waitForAskJobLoop_exit (timeline : Nat → AskJobRec) (w p : Nat) :
    ∀ (fuel elapsed : Nat), w + 1 ≤ elapsed + fuel * p →
      ∃ t, waitForAskJobLoop timeline w p elapsed fuel = timeline t ∧
        (isTerminalJob (timeline t) = true ∨ w ≤ t) := by
  intro fuel
  induction fuel with
  | zero =>
    intro elapsed hbound
    refine ⟨elapsed, ?_, Or.inr (by omega)⟩
    unfold waitForAskJobLoop
    dsimp only
    split
    · split <;> rfl
    · rfl
  | succ fuel ih =>
    intro elapsed hbound
    by_cases hqr : ((timeline elapsed).state == .queued ||
        (timeline elapsed).state == .running) = true
    · by_cases hto : w ≤ elapsed
      · refine ⟨elapsed, ?_, Or.inr hto⟩
        unfold waitForAskJobLoop
        simp [hqr, hto]
      · have hrec : waitForAskJobLoop timeline w p elapsed (fuel + 1) =
            waitForAskJobLoop timeline w p (elapsed + p) fuel := by
          conv_lhs => rw [waitForAskJobLoop]
          simp [hqr, hto]
        rw [hrec]
        have hmul : (fuel + 1) * p = fuel * p + p := by ring
        exact ih (elapsed + p) (by omega)
    · refine ⟨elapsed, ?_, Or.inl ?_⟩
      · unfold waitForAskJobLoop
        simp [hqr]
      · cases hs : (timeline elapsed).state <;> simp_all [isTerminalJob]

/--
C9: the await/wait operation on a job never mutates the job.  It only
samples the job's state (the returned record is a value of the job's
timeline, and the loop exits only on a terminal state or once the timeout
has elapsed, given a positive poll interval as the tool schema requires);
in particular, when the job does not change during the wait, the returned
job is equal to the original in every field.
-/
theorem waitForAskJob_only_samples (timeline : Nat → AskJobRec) (w p : Nat) (hp : 1 ≤ p) :
    (∃ t, waitForAskJob timeline w p = timeline t ∧
        (isTerminalJob (timeline t) = true ∨ w ≤ t)) ∧
    (∀ j : AskJobRec, waitForAskJob (fun _ => j) w p = j) := by
  have hbound : ∀ w' : Nat, w' + 1 ≤ 0 + (w' + 1) * p := by
    intro w'
    have := Nat.mul_le_mul_left (w' + 1) hp
    omega
  constructor
  · exact waitForAskJobLoop_exit timeline w p (w + 1) 0 (hbound w)
  · intro j
    obtain ⟨t, ht, _⟩ := waitForAskJobLoop_exit (fun _ => j) w p (w + 1) 0 (hbound w)
    simpa [waitForAskJob] using ht

def sampleJob : AskJobRec :=
  { id := "a", state := .queued, createdAt := 0, input := { prompt := "p" } }

theorem waitForAskJob_only_samples_witness :
    waitForAskJob (fun _ => sampleJob) 100 10 = sampleJob :=
  (waitForAskJob_only_samples (fun _ => sampleJob) 100 10 (by decide)).2 sampleJob

/-- Helper for C10: a job whose id differs from every evictable job's id
survives the capacity-eviction loop. -/
theorem mem_evictLoop_of_id_ne (cap : Nat) :
    ∀ (s jobs : List AskJobRec) (j : AskJobRec), j ∈ jobs →
      (∀ e ∈ s, e.id ≠ j.id) → j ∈ evictLoop cap jobs s := by
  intro s
  induction s with
  | nil =>
    intro jobs j hj _
    simpa [evictLoop] using hj
  | cons e rest ih =>
    intro jobs j hj hids
    unfold evictLoop
    split
    · apply ih
      · refine List.mem_filter.mpr ⟨hj, ?_⟩
        have hne : e.id ≠ j.id := hids e (by simp)
        simp [bne, Ne.symm hne]
      · intro e2 he2
        exact hids e2 (by simp [he2])
    · exact hj

/--
C10: the maintenance sweep never evicts a queued or running job.  Under the
job lifecycle (a non-terminal job has no finish time, since `finishedAt` is
only assigned after the state becomes succeeded or failed), TTL eviction
skips it, and capacity eviction only deletes ids of terminal jobs, so every
non-terminal job is still in the table after the sweep, whatever its age
and the table size.
-/
theorem cleanup_never_evicts_live (now ttl : Int) (cap : Nat) (jobs : List AskJobRec)
    (hids : (jobs.map (fun j => j.id)).Nodup)
    (hlife : ∀ j ∈ jobs, isTerminalJob j = false → j.finishedAt = none)
    (j : AskJobRec) (hj : j ∈ jobs) (hterm : isTerminalJob j = false) :
    j ∈ cleanupAskJobs now ttl cap jobs := by
  have hfin : j.finishedAt = none := hlife j hj hterm
  have hexp : ttlExpired now ttl j = false := by simp [ttlExpired, hfin]
  have hj1 : j ∈ jobs.filter (fun x => !ttlExpired now ttl x) :=
    List.mem_filter.mpr ⟨hj, by simp [hexp]⟩
  unfold cleanupAskJobs
  dsimp only
  split
  · exact hj1
  · apply mem_evictLoop_of_id_ne _ _ _ _ hj1
    intro e he hid
    have he1 : e ∈ (jobs.filter (fun x => !ttlExpired now ttl x)).filter isTerminalJob :=
      List.mem_mergeSort.mp he
    have heT : isTerminalJob e = true := (List.mem_filter.mp he1).2
    have heJ : e ∈ jobs := (List.mem_filter.mp (List.mem_filter.mp he1).1).1
    have : e = j := List.inj_on_of_nodup_map hids heJ hj hid
    rw [this, hterm] at heT
    exact Bool.false_ne_true heT

theorem cleanup_never_evicts_live_witness :
    sampleJob ∈ cleanupAskJobs 1000 10 0 [sampleJob] :=
  cleanup_never_evicts_live 1000 10 0 [sampleJob] (by decide)
    (by decide) sampleJob (by decide) (by decide)

/-- Helper: without a `heading "ChatGPT said:"` line, the primary path
collects no assistant chunk. -/
theorem primaryChunks_nil_of_no_heading :
    ∀ (lines : List (List Char)),
      (∀ l ∈ lines, isHeadingLabelLine "ChatGPT said:" l = false) →
      primaryChunks lines = [] := by
  intro lines
  induction lines with
  | nil => intro _; rfl
  | cons l rest ih =>
    intro h
    have hl : isHeadingLabelLine "ChatGPT said:" l = false := h l (by simp)
    have hrest := ih (fun x hx => h x (by simp [hx]))
    simp [primaryChunks, hl, hrest]

/-- Helper: a candidate whose whitespace normalization equals the prompt's
is flagged as a prompt echo. -/
theorem looksLike_of_collapse_eq (v : List Char) (pn : String)
    (h : collapseWhitespace ⟨v⟩ = collapseWhitespace pn)
    (hpn : collapseWhitespace pn ≠ "") :
    looksLikePromptText ⟨v⟩ pn = true := by
  have hpn0 : pn ≠ "" := fun he => hpn (by rw [he]; rfl)
  have hpn' : (pn == "") = false := by simpa using hpn0
  have hdata : (collapseWhitespace pn).data ≠ [] := by
    intro hd
    exact hpn (String.ext hd)
  unfold looksLikePromptText
  rw [h]
  simp [hpn', List.isEmpty_iff, hdata]

/-- Helper: a line whose fallback value is empty or normalizes to the
prompt contributes nothing to `before`/`after`. -/
theorem fallbackStep_no_push (pn : String) (st : FBState) (line : List Char)
    (hb : st.before = []) (ha : st.after = [])
    (hline : (fallbackLineValue line).all
      (fun v => v.isEmpty || (collapseWhitespace ⟨v⟩ == collapseWhitespace pn)) = true)
    (hpn : collapseWhitespace pn ≠ "") :
    (fallbackStep pn st line).before = [] ∧ (fallbackStep pn st line).after = [] := by
  unfold fallbackStep
  dsimp only
  split
  · exact ⟨hb, ha⟩
  split
  · exact ⟨hb, ha⟩
  generalize hst1eq :
    (if isHeadingQuoteLine line = true then { st with inUser := false } else st) = st1
  have hb1 : st1.before = [] := by rw [← hst1eq]; split <;> simpa using hb
  have ha1 : st1.after = [] := by rw [← hst1eq]; split <;> simpa using ha
  split
  · exact ⟨hb1, ha1⟩
  cases hval : fallbackLineValue line with
  | none => exact ⟨hb1, ha1⟩
  | some v =>
    have hfromline : (v.isEmpty || (collapseWhitespace ⟨v⟩ == collapseWhitespace pn)) = true := by
      rw [hval] at hline
      simpa using hline
    by_cases hE : v.isEmpty = true
    · simp only [hE, if_true]
      exact ⟨hb1, ha1⟩
    · have hbeq : (collapseWhitespace ⟨v⟩ == collapseWhitespace pn) = true := by
        rcases Bool.or_eq_true _ _ |>.mp hfromline with h1 | h2
        · exact absurd h1 hE
        · exact h2
      have hlook : looksLikePromptText ⟨v⟩ pn = true :=
        looksLike_of_collapse_eq v pn (by simpa using hbeq) hpn
      simp only [hE, Bool.false_eq_true, if_false, hlook, if_true]
      exact ⟨hb1, ha1⟩

/-- Helper: the fallback scan collects no candidates when every candidate
line is empty or a prompt echo. -/
theorem fallbackScan_no_push (pn : String) (hpn : collapseWhitespace pn ≠ "") :
    ∀ (lines : List (List Char)) (st : FBState), st.before = [] → st.after = [] →
      (∀ l ∈ lines, (fallbackLineValue l).all
        (fun v => v.isEmpty || (collapseWhitespace ⟨v⟩ == collapseWhitespace pn)) = true) →
      (lines.foldl (fallbackStep pn) st).before = [] ∧
        (lines.foldl (fallbackStep pn) st).after = [] := by
  intro lines
  induction lines with
  | nil => intro st hb ha _; exact ⟨hb, ha⟩
  | cons l rest ih =>
    intro st hb ha h
    have hstep := fallbackStep_no_push pn st l hb ha (h l (by simp)) hpn
    exact ih (fallbackStep pn st l) hstep.1 hstep.2 (fun x hx => h x (by simp [hx]))

/--
C4: for every snapshot that contains no assistant-turn heading and whose
text/paragraph candidate blocks all equal the original prompt after
whitespace normalization, the extractor returns the empty string rather
than the prompt.
-/
theorem extractor_drops_prompt_only_snapshot (snapshot prompt : String)
    (hhead : ∀ l ∈ processLines snapshot, isHeadingLabelLine "ChatGPT said:" l = false)
    (hpn : collapseWhitespace (jsTrimStr prompt) ≠ "")
    (hvals : ∀ l ∈ processLines snapshot, (fallbackLineValue l).all
      (fun v => v.isEmpty ||
        (collapseWhitespace ⟨v⟩ == collapseWhitespace (jsTrimStr prompt))) = true) :
    extractLikelyAssistantTextFromSnapshot snapshot prompt = "" := by
  have h1 : primaryChunks (processLines snapshot) = [] :=
    primaryChunks_nil_of_no_heading _ hhead
  have h2 := fallbackScan_no_push (jsTrimStr prompt) hpn (processLines snapshot)
    ⟨false, false, [], []⟩ rfl rfl hvals
  have h3 : fallbackPreferred (processLines snapshot) (jsTrimStr prompt) = [] := by
    unfold fallbackPreferred fallbackScan
    simp [h2.1, h2.2]
  simp [extractLikelyAssistantTextFromSnapshot, h1, h3]

theorem extractor_drops_prompt_only_snapshot_witness :
    extractLikelyAssistantTextFromSnapshot
      "paragraph: \"hello   world\"\ntext: hello world" "hello world" = "" :=
  extractor_drops_prompt_only_snapshot _ _ (by decide) (by decide) (by decide)

/-! ### Helpers for C6 (capacity eviction keeps the most recently finished jobs) -/

/-- Under distinct ids, deleting by id (`askJobs.delete(next.id)`) removes
exactly the one evicted job. -/
theorem filter_id_ne_eq_erase (e : AskJobRec) :
    ∀ (jobs : List AskJobRec), (jobs.map (fun j => j.id)).Nodup → e ∈ jobs →
      jobs.filter (fun j => j.id != e.id) = jobs.erase e := by
  intro jobs
  induction jobs with
  | nil => intro _ h; simp at h
  | cons a tl ih =>
    intro hnd he
    have hnd2 : a.id ∉ tl.map (fun j => j.id) ∧ (tl.map (fun j => j.id)).Nodup := by
      rw [List.map_cons, List.nodup_cons] at hnd
      exact hnd
    by_cases hae : a = e
    · subst hae
      rw [List.erase_cons_head]
      have hall : ∀ x ∈ tl, (x.id != a.id) = true := by
        intro x hx
        have hmem : x.id ∈ tl.map (fun j => j.id) := List.mem_map_of_mem _ hx
        have hne : x.id ≠ a.id := fun h => hnd2.1 (h ▸ hmem)
        simpa using hne
      rw [List.filter_cons]
      simp only [bne_self_eq_false, Bool.false_eq_true, if_false]
      exact List.filter_eq_self.mpr hall
    · have hetl : e ∈ tl := by
        rcases List.mem_cons.mp he with h | h
        · exact absurd h.symm hae
        · exact h
      have haid : (a.id != e.id) = true := by
        have hmem : e.id ∈ tl.map (fun j => j.id) := List.mem_map_of_mem _ hetl
        have hne : a.id ≠ e.id := fun h => hnd2.1 (h ▸ hmem)
        simpa using hne
      rw [List.erase_cons_tail (by simpa using hae)]
      rw [List.filter_cons]
      simp only [haid, if_true]
      rw [ih hnd2.2 hetl]

/-- The eviction loop removes exactly the first `size - cap` evictable jobs
(the table is a permutation of the evictable list when every job is
terminal). -/
theorem evictLoop_spec (cap : Nat) :
    ∀ (s jobs : List AskJobRec), s.Perm jobs → (jobs.map (fun j => j.id)).Nodup →
      cap ≤ jobs.length →
      (evictLoop cap jobs s).length = cap ∧
      ∀ j, (j ∈ evictLoop cap jobs s ↔ (j ∈ jobs ∧ j ∉ s.take (jobs.length - cap))) := by
  intro s
  induction s with
  | nil =>
    intro jobs hperm hnd hcap
    have hlen0 : jobs.length = 0 := by simpa using hperm.length_eq.symm
    have hj : jobs = [] := List.length_eq_zero.mp hlen0
    subst hj
    have hc0 : cap = 0 := Nat.le_zero.mp hcap
    subst hc0
    exact ⟨rfl, by intro j; simp [evictLoop]⟩
  | cons e rest ih =>
    intro jobs hperm hnd hcap
    by_cases hlt : cap < jobs.length
    · have heJ : e ∈ jobs := hperm.mem_iff.mp (List.mem_cons_self e rest)
      have hrestp : rest.Perm (jobs.erase e) := (List.cons_perm_iff_perm_erase.mp hperm).2
      have hfe : jobs.filter (fun j => j.id != e.id) = jobs.erase e :=
        filter_id_ne_eq_erase e jobs hnd heJ
      have hndJ : jobs.Nodup := List.Nodup.of_map _ hnd
      have hnd' : ((jobs.erase e).map (fun j => j.id)).Nodup :=
        List.Nodup.sublist (List.Sublist.map _ (List.erase_sublist e jobs)) hnd
      have hlen' : (jobs.erase e).length = jobs.length - 1 := List.length_erase_of_mem heJ
      have hcap' : cap ≤ (jobs.erase e).length := by omega
      have hstep : evictLoop cap jobs (e :: rest) = evictLoop cap (jobs.erase e) rest := by
        conv_lhs => unfold evictLoop
        rw [if_pos hlt, hfe]
      obtain ⟨ihlen, ihmem⟩ := ih (jobs.erase e) hrestp hnd' hcap'
      rw [hstep]
      refine ⟨ihlen, ?_⟩
      intro j
      rw [ihmem j]
      have htake : (e :: rest).take (jobs.length - cap) =
          e :: rest.take ((jobs.erase e).length - cap) := by
        have h1 : jobs.length - cap = ((jobs.erase e).length - cap) + 1 := by omega
        rw [h1, List.take_succ_cons]
      rw [htake]
      constructor
      · rintro ⟨hj1, hj2⟩
        have hm := (List.Nodup.mem_erase_iff hndJ).mp hj1
        refine ⟨hm.2, ?_⟩
        intro hmem
        rcases List.mem_cons.mp hmem with h | h
        · exact hm.1 h
        · exact hj2 h
      · rintro ⟨hj1, hj2⟩
        have hne : j ≠ e := fun h => hj2 (by simp [h])
        refine ⟨(List.Nodup.mem_erase_iff hndJ).mpr ⟨hne, hj1⟩, ?_⟩
        intro h
        exact hj2 (List.mem_cons.mpr (Or.inr h))
    · have hstep : evictLoop cap jobs (e :: rest) = jobs := by
        conv_lhs => unfold evictLoop
        rw [if_neg hlt]
      rw [hstep]
      constructor
      · omega
      · intro j
        have h0 : jobs.length - cap = 0 := by omega
        simp [h0]

/-- Among jobs with keys different from `kj`, every job counts on exactly
one side of `kj`. -/
theorem countP_lt_add_gt_of_ne (key : AskJobRec → Int) :
    ∀ (l : List AskJobRec) (kj : Int), (∀ x ∈ l, key x ≠ kj) →
      l.countP (fun x => decide (key x < kj)) +
        l.countP (fun x => decide (kj < key x)) = l.length := by
  intro l
  induction l with
  | nil => intro _ _; rfl
  | cons a tl ih =>
    intro kj h
    have ha : key a ≠ kj := h a (by simp)
    have htl := ih kj (fun x hx => h x (by simp [hx]))
    rw [List.countP_cons, List.countP_cons]
    rcases lt_or_gt_of_ne ha with hlt | hgt
    · rw [if_pos (by simpa using hlt), if_neg (by simpa using not_lt_of_gt hlt)]
      simp only [List.length_cons]
      omega
    · rw [if_neg (by simpa using not_lt_of_gt hgt), if_pos (by simpa using hgt)]
      simp only [List.length_cons]
      omega

/-- With pairwise-distinct keys, the strictly-smaller and strictly-larger
counts around a member's key add up to the length minus the member itself. -/
theorem countP_key_split (key : AskJobRec → Int) :
    ∀ (l : List AskJobRec) (j : AskJobRec), j ∈ l → (l.map key).Nodup →
      l.countP (fun x => decide (key x < key j)) +
        l.countP (fun x => decide (key j < key x)) + 1 = l.length := by
  intro l
  induction l with
  | nil => intro j h; simp at h
  | cons a tl ih =>
    intro j hj hnd
    have hnd2 : key a ∉ tl.map key ∧ (tl.map key).Nodup := by
      rw [List.map_cons, List.nodup_cons] at hnd
      exact hnd
    rcases List.mem_cons.mp hj with rfl | hjtl
    · have hall : ∀ x ∈ tl, key x ≠ key j := by
        intro x hx h
        exact hnd2.1 (h ▸ List.mem_map_of_mem key hx)
      have hsum := countP_lt_add_gt_of_ne key tl (key j) hall
      rw [List.countP_cons, List.countP_cons, if_neg (by simp)]
      simp only [List.length_cons]
      omega
    · have haj : key a ≠ key j := by
        intro h
        exact hnd2.1 (h ▸ List.mem_map_of_mem key hjtl)
      have hih := ih j hjtl hnd2.2
      rw [List.countP_cons, List.countP_cons]
      rcases lt_or_gt_of_ne haj with hlt | hgt
      · rw [if_pos (by simpa using hlt), if_neg (by simpa using not_lt_of_gt hlt)]
        simp only [List.length_cons]
        omega
      · rw [if_neg (by simpa using not_lt_of_gt hgt), if_pos (by simpa using hgt)]
        simp only [List.length_cons]
        omega

/-- In a strictly key-sorted list, a member lies in the first `k` positions
exactly when fewer than `k` members have a smaller key. -/
theorem strictSorted_take_iff (key : AskJobRec → Int) :
    ∀ (s : List AskJobRec) (k : Nat) (j : AskJobRec),
      s.Pairwise (fun a b => key a < key b) → j ∈ s →
      (j ∈ s.take k ↔ s.countP (fun x => decide (key x < key j)) < k) := by
  intro s
  induction s with
  | nil => intro k j _ h; simp at h
  | cons a tl ih =>
    intro k j hpw hj
    have hpw2 := List.pairwise_cons.mp hpw
    cases k with
    | zero => simp
    | succ k =>
      rcases List.mem_cons.mp hj with rfl | hjtl
      · have hc0 : tl.countP (fun x => decide (key x < key j)) = 0 := by
          apply List.countP_eq_zero.mpr
          intro x hx
          simpa using not_lt_of_gt (hpw2.1 x hx)
        rw [List.take_succ_cons, List.countP_cons, hc0, if_neg (by simp)]
        simp
      · have haj : key a < key j := hpw2.1 j hjtl
        rw [List.take_succ_cons, List.countP_cons, if_pos (by simpa using haj)]
        have hih := ih k j hpw2.2 hjtl
        constructor
        · intro h
          rcases List.mem_cons.mp h with rfl | h2
          · exact absurd haj (lt_irrefl _)
          · have := hih.mp h2
            omega
        · intro h
          have h2 : tl.countP (fun x => decide (key x < key j)) < k := by omega
          exact List.mem_cons.mpr (Or.inr (hih.mpr h2))

/--
C6: for a table of `cap + k` terminal jobs (all within the TTL, with
distinct ids and distinct finish keys), the maintenance sweep leaves
exactly `cap` jobs resolvable, and a job is retained exactly when fewer
than `cap` jobs finished more recently — capacity eviction removes the
oldest terminal jobs first.
-/
theorem cleanup_keeps_most_recent (now ttl : Int) (cap k : Nat) (jobs : List AskJobRec)
    (hids : (jobs.map (fun j => j.id)).Nodup)
    (hkeys : (jobs.map evictKey).Nodup)
    (hterm : ∀ j ∈ jobs, isTerminalJob j = true)
    (hfresh : ∀ j ∈ jobs, ttlExpired now ttl j = false)
    (hlen : jobs.length = cap + k) :
    (cleanupAskJobs now ttl cap jobs).length = cap ∧
    ∀ j ∈ jobs, (j ∈ cleanupAskJobs now ttl cap jobs ↔
      jobs.countP (fun j2 => decide (evictKey j < evictKey j2)) < cap) := by
  have hfilter : jobs.filter (fun j => !ttlExpired now ttl j) = jobs :=
    List.filter_eq_self.mpr (fun a ha => by simp [hfresh a ha])
  have hfilterT : jobs.filter isTerminalJob = jobs := List.filter_eq_self.mpr hterm
  unfold cleanupAskJobs
  dsimp only
  rw [hfilter, hfilterT]
  by_cases hle : jobs.length ≤ cap
  · rw [if_pos hle]
    constructor
    · omega
    · intro j hj
      have hsplit := countP_key_split evictKey jobs j hj hkeys
      exact ⟨fun _ => by omega, fun _ => hj⟩
  · rw [if_neg hle]
    have hperm : (jobs.mergeSort evictLe).Perm jobs := List.mergeSort_perm jobs _
    have hsorted : (jobs.mergeSort evictLe).Pairwise (fun a b => evictLe a b = true) :=
      List.sorted_mergeSort
        (by intro a b c h1 h2; simp only [evictLe, decide_eq_true_eq] at h1 h2 ⊢; omega)
        (by
          intro a b
          simp only [evictLe]
          by_cases h : evictKey a ≤ evictKey b
          · simp [h]
          · simp only [h, decide_False, Bool.false_or, decide_eq_true_eq]
            omega)
        jobs
    have hkeysS : ((jobs.mergeSort evictLe).map evictKey).Nodup :=
      ((hperm.map evictKey).nodup_iff).mpr hkeys
    have hne : (jobs.mergeSort evictLe).Pairwise (fun a b => evictKey a ≠ evictKey b) :=
      List.pairwise_map.mp hkeysS
    have hstrict : (jobs.mergeSort evictLe).Pairwise (fun a b => evictKey a < evictKey b) := by
      refine (hsorted.and hne).imp ?_
      intro a b hab
      have h1 : evictKey a ≤ evictKey b := by
        have := hab.1
        simpa [evictLe] using this
      exact lt_of_le_of_ne h1 hab.2
    obtain ⟨hlenE, hmemE⟩ :=
      evictLoop_spec cap (jobs.mergeSort evictLe) jobs hperm hids (by omega)
    refine ⟨hlenE, ?_⟩
    intro j hj
    rw [hmemE j]
    have hjs : j ∈ jobs.mergeSort evictLe := hperm.mem_iff.mpr hj
    have htake := strictSorted_take_iff evictKey (jobs.mergeSort evictLe)
      (jobs.length - cap) j hstrict hjs
    have hcount : (jobs.mergeSort evictLe).countP (fun x => decide (evictKey x < evictKey j)) =
        jobs.countP (fun x => decide (evictKey x < evictKey j)) :=
      List.Perm.countP_eq _ hperm
    have hsplit := countP_key_split evictKey jobs j hj hkeys
    constructor
    · rintro ⟨_, hnt⟩
      have h1 : ¬ ((jobs.mergeSort evictLe).countP
          (fun x => decide (evictKey x < evictKey j)) < jobs.length - cap) :=
        fun hh => hnt (htake.mpr hh)
      omega
    · intro hlt2
      refine ⟨hj, ?_⟩
      intro hmem
      have h2 := htake.mp hmem
      omega

def sampleJobA : AskJobRec :=
  { id := "a", state := .succeeded, createdAt := 0, finishedAt := some 10,
    input := { prompt := "p" } }

def sampleJobB : AskJobRec :=
  { id := "b", state := .failed, createdAt := 1, finishedAt := some 20,
    input := { prompt := "q" } }

theorem cleanup_keeps_most_recent_witness :
    (cleanupAskJobs 25 100 1 [sampleJobA, sampleJobB]).length = 1 :=
  (cleanup_keeps_most_recent 25 100 1 1 [sampleJobA, sampleJobB]
    (by decide) (by decide) (by decide) (by decide) (by decide)).1

end ChatgptWebui
